import Mathlib

/-!
Shallow embedding of the retrieval-and-context-assembly pipeline
(`src/lib/rag/retriever.ts`, `src/lib/rag/context-builder.ts`, and the
query-expansion module) of the digital-twin repository, together with
theorems settling the specification claims about it.

JavaScript strings are modelled as `List Char` (`Str`); JavaScript numbers
carrying similarity scores and token estimates are modelled as exact
rationals (`ℚ`) resp. naturals, with the floating-point constants of the
source (`0.55`, `0.7`, …) rendered as the corresponding rationals.
Asynchronous, fallible calls (embedding generation, vector-index search,
LLM generation) are modelled as oracle functions returning `Except`/`Option`
values; a rejected promise is an `Except.error`.
-/

namespace DigitalTwin

/-- JavaScript strings, modelled as lists of characters. -/
abbrev Str := List Char

/-- Character-level lower-casing; models `String.prototype.toLowerCase`. -/
def jsToLower (s : Str) : Str := s.map Char.toLower

/-- Whitespace test backing the `\s` character class of the source's regexes. -/
def isWS (c : Char) : Bool := c.isWhitespace

/-- Helper for `collapseWs`: the Boolean records whether the previously
emitted character was the space standing for a whitespace run. -/
def collapseWsAux : Bool → Str → Str
  | _, [] => []
  | prevWs, c :: cs =>
    if isWS c then
      if prevWs then collapseWsAux true cs
      else ' ' :: collapseWsAux true cs
    else c :: collapseWsAux false cs

/-- Models `replace(/\s+/g, ' ')`: every maximal whitespace run becomes a
single space. -/
def collapseWs (s : Str) : Str := collapseWsAux false s

/-- Models `String.prototype.trim`: strip leading and trailing whitespace. -/
def jsTrim (s : Str) : Str :=
  (((s.dropWhile isWS).reverse).dropWhile isWS).reverse

/-- Helper for `wordsOf`; the accumulator holds the current word reversed. -/
def wordsAux : Str → Str → List Str
  | [], cur => if cur = [] then [] else [cur.reverse]
  | c :: cs, cur =>
    if isWS c then
      if cur = [] then wordsAux cs []
      else cur.reverse :: wordsAux cs []
    else wordsAux cs (c :: cur)

/-- The maximal non-whitespace runs of a string, in order.  This is
`split(/\s+/)` with empty fragments dropped (the source always either
filters the fragments by a positive length bound or applies the split to a
trimmed string, where the only possible empty fragment is the `[""]`
artifact on the empty string, handled separately in `jsTokenCount`). -/
def wordsOf (s : Str) : List Str := wordsAux s []

/-- Models `query.trim().split(/\s+/).length`: the number of
whitespace-delimited tokens.  JavaScript's `"".split(/\s+/)` is `[""]`,
so the empty trimmed string counts one token. -/
def jsTokenCount (s : Str) : Nat :=
  let t := jsTrim s
  if t = [] then 1 else (wordsOf t).length

/-- First-occurrence deduplication with an explicit seen accumulator;
models the construction of a JavaScript `Set` from a list (the `Set`
iterates in insertion order and keeps the first occurrence). -/
def keepFirstAux {α : Type} [DecidableEq α] (seen : List α) : List α → List α
  | [] => []
  | x :: xs =>
    if x ∈ seen then keepFirstAux seen xs
    else x :: keepFirstAux (x :: seen) xs

/-- The distinct elements of a list, first occurrences first; models
`new Set(list)` / `Array.from(new Set(list))`. -/
def keepFirst {α : Type} [DecidableEq α] (l : List α) : List α := keepFirstAux [] l

-- ---------------------------------------------------------------------------
-- Data model (`src/types/index.ts`)
-- ---------------------------------------------------------------------------

/-- The origin system of a chunk (`metadata.source`).  The pipeline under
verification branches on `'github'` versus `'notion'`. -/
inductive SourceSystem where
  | github
  | notion
deriving DecidableEq, Repr

/-- The string rendering of a `SourceSystem`, as interpolated by
template literals in the source. -/
def SourceSystem.str : SourceSystem → Str
  | .github => ("github").data
  | .notion => ("notion").data

/-- Chunk metadata (`ChunkMetadata` in `src/types`).  Only the fields read
by the retrieval pipeline are modelled; `visibility`, `language` and
`labels` are never consulted by it. -/
structure ChunkMetadata where
  type : Str
  source : SourceSystem
  repo : Option Str
  title : Option Str
  date : Option Str
  url : Option Str
  «section» : Option Str
deriving DecidableEq, Repr

/-- A vector-index hit (`SearchResult` in `src/types`); the optional `id`
field is never read by the pipeline and is omitted. -/
structure SearchResult where
  text : Str
  score : ℚ
  metadata : ChunkMetadata
deriving DecidableEq, Repr

/-- A citation record (`ChunkSource` in `src/types`). -/
structure ChunkSource where
  sourceId : Str
  source : SourceSystem
  title : Option Str
  repo : Option Str
  type : Str
  «section» : Option Str
  date : Option Str
  url : Option Str
  snippet : Str
  score : ℚ
deriving DecidableEq, Repr

/-- Qualitative confidence level (`RetrievalConfidence.level`). -/
inductive ConfidenceLevel where
  | low
  | medium
  | high
deriving DecidableEq, Repr

/-- A confidence assessment (`RetrievalConfidence` in `src/types`). -/
structure RetrievalConfidence where
  level : ConfidenceLevel
  score : ℚ
  reason : Str
deriving DecidableEq, Repr

-- ---------------------------------------------------------------------------
-- Context builder (`src/lib/rag/context-builder.ts`)
-- ---------------------------------------------------------------------------

/-- Modelled from the spec: the `estimateTokens` helper of the utils module
is imported by the context builder but its source file is not among the
provided sources; §4.5 describes the running token estimate as
"approximate, e.g. 4 characters per token" (ceiling division). -/
def estimateTokens (s : Str) : Nat := (s.length + 3) / 4

/-- The token budget (`MAX_CONTEXT_TOKENS`). -/
def MAX_CONTEXT_TOKENS : Nat := 8000

/-- The result of `buildContext`. -/
structure ContextBuildResult where
  contextText : Str
  sources : List ChunkSource
deriving DecidableEq, Repr

/-- The human-readable source label of a hit (`buildSourceLabel`).
`dateFmt` stands for the locale- and environment-dependent
`toLocaleDateString` month-year rendering of `metadata.date`,
which is passed in as a parameter rather than modelled. -/
def buildSourceLabel (dateFmt : Str → Str) (result : SearchResult) : Str :=
  let parts : List Str :=
    (if result.metadata.source = SourceSystem.notion then
      [("Notion").data] ++ (result.metadata.title.map (fun t => [t])).getD []
    else
      (result.metadata.repo.map (fun r => [r])).getD []
        ++ [result.metadata.type.map (fun c => if c = '_' then ' ' else c)])
    ++ (result.metadata.date.map (fun d => [dateFmt d])).getD []
    ++ ((result.metadata.«section»).map (fun s => [("§").data ++ s])).getD []
  List.intercalate ((", ").data) parts

/-- Renders one citation-tagged chunk block (`formatChunk`). -/
def formatChunk (dateFmt : Str → Str) (sourceId : Str) (result : SearchResult) : Str :=
  ("[").data ++ sourceId ++ ("] [Source: ").data ++ buildSourceLabel dateFmt result
    ++ (']' :: '\n' :: result.text)

/-- Builds the citation record of an included hit (`toChunkSource`). -/
def toChunkSource (sourceId : Str) (result : SearchResult) : ChunkSource :=
  { sourceId := sourceId
    source := result.metadata.source
    title := result.metadata.title
    repo := result.metadata.repo
    type := result.metadata.type
    «section» := result.metadata.«section»
    date := result.metadata.date
    url := result.metadata.url
    snippet := result.text.take 280
    score := result.score }

/-- The normalized text used for near-duplicate detection:
`chunk.text.toLowerCase().replace(/\s+/g, ' ').trim()`. -/
def normalizeText (t : Str) : Str := jsTrim (collapseWs (jsToLower t))

/-- The distinct words longer than 3 characters of a string:
`new Set(p.split(/\s+/).filter((w) => w.length > 3))`. -/
def distinctWords (p : Str) : List Str :=
  keepFirst ((wordsOf p).filter (fun w => w.length > 3))

/-- Approximate overlap ratio between two normalized strings
(`computeOverlap`): compare the word sets (words longer than 3
characters) of the shared-prefix region covering 70% of the shorter
string, returning `|shared| / max(|wordsA|, |wordsB|)`; strings shorter
than 50 characters never overlap anything. -/
def computeOverlap (a b : Str) : ℚ :=
  if a.length < 50 ∨ b.length < 50 then 0
  else
    -- Math.floor(Math.min(a.length, b.length) * 0.7)
    let maxPrefLen := (7 * min a.length b.length) / 10
    let wordsA := distinctWords (a.take maxPrefLen)
    let wordsB := distinctWords (b.take maxPrefLen)
    if wordsA.length = 0 ∨ wordsB.length = 0 then 0
    else
      let sharedCount := (wordsA.filter (fun w => w ∈ wordsB)).length
      (sharedCount : ℚ) / (max wordsA.length wordsB.length : ℚ)

/-- The loop of `deduplicateChunks`, with the `seen` set of normalized
texts made explicit (insertion order at the tail, as a JavaScript `Set`). -/
def dedupChunksAux : List SearchResult → List Str → List SearchResult
  | [], _ => []
  | chunk :: rest, seen =>
    let normalizedText := normalizeText chunk.text
    if seen.any (fun seenText => decide ((7 : ℚ)/10 < computeOverlap normalizedText seenText)) then
      dedupChunksAux rest seen
    else chunk :: dedupChunksAux rest (seen ++ [normalizedText])

/-- Removes chunks that are very similar to higher-ranked chunks
(`deduplicateChunks`). -/
def deduplicateChunks (sorted : List SearchResult) : List SearchResult :=
  dedupChunksAux sorted []

/-- The comparison order of the score-descending sorts: `a` may stay
before `b` whenever `b.score ≤ a.score`, which is the stable-sort
semantics of `.sort((a, b) => b.score - a.score)` (ECMAScript sorts are
stable). -/
def byScoreDesc (a b : SearchResult) : Prop := b.score ≤ a.score

instance : DecidableRel byScoreDesc := fun a b => inferInstanceAs (Decidable (b.score ≤ a.score))

instance : IsTotal SearchResult byScoreDesc := ⟨fun a b => le_total b.score a.score⟩

instance : IsTrans SearchResult byScoreDesc := ⟨fun _ _ _ h1 h2 => le_trans h2 h1⟩

/-- The stable score-descending sort used by the retriever and the context
builder.  A stable sort is extensionally unique, so the insertion sort
stands in for the engine's merge sort. -/
def sortByScoreDesc (l : List SearchResult) : List SearchResult :=
  List.insertionSort byScoreDesc l

/-- The 1-based citation identifier `` `S${n}` ``. -/
def sid (n : Nat) : Str := ("S").data ++ (toString n).data

/-- The token-budgeted inclusion loop of `buildContext`: walks the
deduplicated list carrying the enumeration index and the running token
total, returning the formatted parts and the citation records.  An early
`return`-free rendering of the `for … break` loop of the source. -/
def buildLoop (dateFmt : Str → Str) : List SearchResult → Nat → Nat → List Str × List ChunkSource
  | [], _, _ => ([], [])
  | result :: rest, index, totalTokens =>
    let sourceId := sid (index + 1)
    let chunkText := formatChunk dateFmt sourceId result
    let chunkTokens := estimateTokens chunkText
    if totalTokens + chunkTokens > MAX_CONTEXT_TOKENS then
      -- Try to fit a truncated version, then stop.
      let remainingTokens := MAX_CONTEXT_TOKENS - totalTokens
      if remainingTokens > 100 then
        ([formatChunk dateFmt sourceId
            { result with text := result.text.take (remainingTokens * 4) ++ ("...").data }],
         [toChunkSource sourceId result])
      else ([], [])
    else
      let (parts, sources) := buildLoop dateFmt rest (index + 1) (totalTokens + chunkTokens)
      (chunkText :: parts, toChunkSource sourceId result :: sources)

/-- The separator joining formatted blocks. -/
def blockSep : Str := ("\n\n---\n\n").data

/-- Assembles retrieved chunks into a structured evidence context
(`buildContext`): sort a copy by score descending, drop near-duplicates,
then include blocks up to the token budget. -/
def buildContext (dateFmt : Str → Str) (results : List SearchResult) : ContextBuildResult :=
  if results = [] then { contextText := [], sources := [] }
  else
    let sorted := sortByScoreDesc results
    let deduplicated := deduplicateChunks sorted
    let (contextParts, sources) := buildLoop dateFmt deduplicated 0 0
    { contextText := List.intercalate blockSep contextParts, sources := sources }

-- ---------------------------------------------------------------------------
-- Query expansion (`expandQuery`)
-- ---------------------------------------------------------------------------

/-- Strips one leading and one trailing quote character:
`replace(/^["']|["']$/g, '')`. -/
def stripEdgeQuotes (s : Str) : Str :=
  let dropLead : Str → Str := fun t =>
    match t with
    | [] => []
    | c :: cs => if c = '"' ∨ c = '\'' then cs else c :: cs
  (dropLead ((dropLead s).reverse)).reverse

/-- The rephrasing prompt sent to the generation model, with the user
query interpolated. -/
def expansionPrompt (query : Str) : Str :=
  ("Rephrase the following question in a different way that asks for the same information but uses different vocabulary. Return ONLY the rephrased question, nothing else.\n\nQuestion: \"").data
    ++ query ++ ("\"").data

/-- Generates one alternative phrasing of the query (`expandQuery`).
`gen` is the text-generation oracle (`none` models a thrown/rejected
generation call, which the source swallows).  The Boolean of the result
is instrumentation recording whether the generation call was issued at
all.  Queries of fewer than 4 whitespace-delimited tokens short-circuit
to the empty expansion without calling `gen`. -/
def expandQuery (gen : Str → Option Str) (query : Str) : List Str × Bool :=
  if jsTokenCount query < 4 then ([], false)
  else
    match gen (expansionPrompt query) with
    | none => ([], true)
    | some content =>
      let rephrased := stripEdgeQuotes (jsTrim content)
      (if rephrased.length > 5 then [rephrased] else [], true)

-- ---------------------------------------------------------------------------
-- Retriever (`src/lib/rag/retriever.ts`)
-- ---------------------------------------------------------------------------

/-- The default number of evidence items (`DEFAULT_TOP_K`). -/
def DEFAULT_TOP_K : Nat := 10

/-- The default score floor (`MIN_SCORE_THRESHOLD = 0.25`). -/
def MIN_SCORE_THRESHOLD : ℚ := 1/4

/-- The source key of a hit for the distinct-source count of the
confidence scorer: `` `${source}:${repo ?? title ?? 'global'}` ``. -/
def confSourceKey (chunk : SearchResult) : Str :=
  chunk.metadata.source.str ++ (":").data
    ++ ((chunk.metadata.repo).getD ((chunk.metadata.title).getD (("global").data)))

/-- Derives the confidence assessment from the final hit set
(`scoreConfidence`).  The weights `0.55 / 0.35 / 0.10`, the cap `1`, and
the thresholds `0.72 / 0.5` are the source's floating-point constants as
exact rationals. -/
def scoreConfidence (chunks : List SearchResult) : RetrievalConfidence :=
  if chunks = [] then
    { level := ConfidenceLevel.low
      score := 0
      reason := ("No relevant evidence retrieved for this query.").data }
  else
    let topScore := ((chunks.head?).map (fun c => c.score)).getD 0
    let topThree := chunks.take 3
    let avgTop := (topThree.map (fun c => c.score)).sum / (topThree.length : ℚ)
    let distinctSources := (keepFirst (chunks.map confSourceKey)).length
    let score :=
      min 1 (topScore * (55/100) + avgTop * (35/100)
        + min ((distinctSources : ℚ) / 3) 1 * (1/10))
    if (72 : ℚ)/100 ≤ score then
      { level := ConfidenceLevel.high
        score := score
        reason := ("High relevance and good evidence coverage across sources.").data }
    else if (1 : ℚ)/2 ≤ score then
      { level := ConfidenceLevel.medium
        score := score
        reason := ("Moderate evidence quality; some claims may need clarification.").data }
    else
      { level := ConfidenceLevel.low
        score := score
        reason := ("Weak or sparse evidence; ask clarifying question or fetch live data.").data }

/-- The merge/deduplication key of step 4 of `retrieveContext`: origin
system, category, grouping key or empty, title or empty, and the
lower-cased first-120-character text prefix, joined with `'|'`. -/
def dedupeKey (r : SearchResult) : Str :=
  List.intercalate (("|").data)
    [r.metadata.source.str,
     r.metadata.type,
     (r.metadata.repo).getD [],
     (r.metadata.title).getD [],
     jsToLower (r.text.take 120)]

/-- The merge loop of step 4, over the concatenation of the per-query
result sets (primary first), carrying the `seen` key set: the first hit
with a given key is kept, later ones are dropped. -/
def mergeDedupAux : List SearchResult → List Str → List SearchResult
  | [], _ => []
  | r :: rest, seen =>
    if dedupeKey r ∈ seen then mergeDedupAux rest seen
    else r :: mergeDedupAux rest (dedupeKey r :: seen)

/-- Merge + deduplicate the per-query result sets (step 4 of
`retrieveContext`); the nested `for` loops of the source traverse exactly
the concatenation of the result sets in issue order. -/
def mergeDedup (resultSets : List (List SearchResult)) : List SearchResult :=
  mergeDedupAux resultSets.flatten []

/-- The per-category cap of the diversity filter (`MAX_PER_TYPE`). -/
def MAX_PER_TYPE : Nat := 4

/-- The accumulation loop of step 5 of `retrieveContext`:
`typeCounts` counts already-accepted hits per category, `curLen` is the
current length of the accepted list; pushing a hit and then reaching
`topK` breaks the loop. -/
def diversityLoop (topK : Nat) : List SearchResult → (Str → Nat) → Nat → List SearchResult
  | [], _, _ => []
  | r :: rest, typeCounts, curLen =>
    let t := r.metadata.type
    if MAX_PER_TYPE ≤ typeCounts t then diversityLoop topK rest typeCounts curLen
    else if topK ≤ curLen + 1 then [r]
    else r :: diversityLoop topK rest (fun t2 => if t2 = t then typeCounts t + 1 else typeCounts t2) (curLen + 1)

/-- Step 5 of `retrieveContext`: drop hits under the score floor, then
cap each category at `MAX_PER_TYPE` and stop at `topK`. -/
def diversityFilter (hits : List SearchResult) (minScore : ℚ) (topK : Nat) : List SearchResult :=
  diversityLoop topK (hits.filter (fun r => minScore ≤ r.score)) (fun _ => 0) 0

/-- An embedding vector; opaque to the pipeline, which only forwards it
to the vector index. -/
structure Embedding where
  vec : List ℚ
deriving DecidableEq, Repr

/-- The external collaborators of `retrieveContext`, as oracles:
`gen` is the expansion text generator (`none` = rejected call), `embed`
is `generateQueryEmbedding` (`Except.error` = rejected promise), `search`
is `vectorStore.search` (`Except.error` = rejected promise), and
`dateFmt` is the locale date renderer used when formatting blocks. -/
structure Oracles where
  gen : Str → Option Str
  embed : Str → Except Unit Embedding
  search : Embedding → Nat → Except Unit (List SearchResult)
  dateFmt : Str → Str

/-- Caller options of `retrieveContext`. -/
structure RetrievalOptions where
  topK : Option Nat
  minScore : Option ℚ

/-- The retrieval result (`RetrievalResult`), with the wall-clock timing
diagnostics omitted and `numIndexQueries` added as instrumentation
counting the vector-index queries issued (the length of
`searchPromises`). -/
structure RetrievalResult where
  chunks : List SearchResult
  sources : List ChunkSource
  contextText : Str
  expandedQueries : List Str
  totalChunksSearched : Nat
  topScores : List ℚ
  confidence : RetrievalConfidence
  numIndexQueries : Nat
deriving Repr

/-- Retrieves relevant context chunks for a query (`retrieveContext`).
The primary-query embedding and each expanded-query embedding propagate
failure (their promises are awaited unguarded inside `Promise.all`);
every vector-index search is wrapped with `.catch(() => [])`, so a failed
search — the primary one included — contributes an empty hit list. -/
def retrieveContext (o : Oracles) (query : Str) (options : RetrievalOptions) :
    Except Unit RetrievalResult :=
  let topK := options.topK.getD DEFAULT_TOP_K
  let minScore := options.minScore.getD MIN_SCORE_THRESHOLD
  match o.embed query with
  | .error e => .error e
  | .ok queryEmbedding =>
    let expandedQueries := (expandQuery o.gen query).1
    match expandedQueries.mapM o.embed with
    | .error e => .error e
    | .ok expandedEmbeddings =>
      let resultSets :=
        ((o.search queryEmbedding (topK * 3)).toOption).getD []
          :: expandedEmbeddings.map (fun emb => ((o.search emb (topK * 2)).toOption).getD [])
      let allResults := sortByScoreDesc (mergeDedup resultSets)
      let filteredResults := diversityFilter allResults minScore topK
      let context := buildContext o.dateFmt filteredResults
      .ok
        { chunks := filteredResults
          sources := context.sources
          contextText := context.contextText
          expandedQueries := expandedQueries
          totalChunksSearched := allResults.length
          topScores := (allResults.take 5).map (fun r => r.score)
          confidence := scoreConfidence filteredResults
          numIndexQueries := resultSets.length }

-- ---------------------------------------------------------------------------
-- Mutation-tracking model of `buildContext` for the frame claim
-- ---------------------------------------------------------------------------

/-- A reference to a JavaScript array object. -/
abbrev ArrayRef := Nat

/-- A store of JavaScript array objects holding search results; array
values are looked up by reference. -/
structure ArrayStore where
  arrays : List (List SearchResult)

/-- Reads the current contents of an array object. -/
def ArrayStore.read (st : ArrayStore) (r : ArrayRef) : List SearchResult :=
  st.arrays.getD r []

/-- Allocates a fresh array object with the given contents, returning its
reference; models an array literal such as the spread copy `[...results]`. -/
def ArrayStore.alloc (st : ArrayStore) (xs : List SearchResult) : ArrayStore × ArrayRef :=
  ({ arrays := st.arrays ++ [xs] }, st.arrays.length)

/-- Overwrites the contents of an existing array object; models an
in-place mutation such as `Array.prototype.sort`. -/
def ArrayStore.write (st : ArrayStore) (r : ArrayRef) (xs : List SearchResult) : ArrayStore :=
  { arrays := st.arrays.set r xs }

/-- `buildContext` with the identity of its array objects made explicit:
`[...results]` allocates a fresh array, and the in-place
`.sort((a, b) => b.score - a.score)` is a write to that fresh array.  The
final store is returned so the caller's array can be inspected after the
call. -/
def buildContextProg (dateFmt : Str → Str) (st : ArrayStore) (resultsRef : ArrayRef) :
    ContextBuildResult × ArrayStore :=
  if st.read resultsRef = [] then ({ contextText := [], sources := [] }, st)
  else
    let (st1, copyRef) := st.alloc (st.read resultsRef)
    let st2 := st1.write copyRef (sortByScoreDesc (st1.read copyRef))
    let sorted := st2.read copyRef
    let deduplicated := deduplicateChunks sorted
    let (contextParts, sources) := buildLoop dateFmt deduplicated 0 0
    ({ contextText := List.intercalate blockSep contextParts, sources := sources }, st2)

-- ---------------------------------------------------------------------------
-- Support lemmas
-- ---------------------------------------------------------------------------

theorem diversityLoop_sublist (topK : Nat) (l : List SearchResult) (tc : Str → Nat) (n : Nat) :
    (diversityLoop topK l tc n).Sublist l := by
  induction l generalizing tc n with
  | nil => simp [diversityLoop]
  | cons r rest ih =>
    simp only [diversityLoop]
    split
    · exact (ih _ _).cons _
    · split
      · exact (List.nil_sublist rest).cons₂ r
      · exact (ih _ _).cons₂ r

theorem diversityFilter_mem_score {hits : List SearchResult} {minScore : ℚ} {topK : Nat}
    {r : SearchResult} (h : r ∈ diversityFilter hits minScore topK) : minScore ≤ r.score := by
  have hsub := diversityLoop_sublist topK (hits.filter (fun r => minScore ≤ r.score)) (fun _ => 0) 0
  have hr : r ∈ hits.filter (fun r => decide (minScore ≤ r.score)) := hsub.subset h
  simpa using (List.of_mem_filter hr)

theorem mergeDedupAux_sublist (l : List SearchResult) (seen : List Str) :
    (mergeDedupAux l seen).Sublist l := by
  induction l generalizing seen with
  | nil => simp [mergeDedupAux]
  | cons r rest ih =>
    simp only [mergeDedupAux]
    split
    · exact (ih _).cons _
    · exact (ih _).cons₂ r

theorem mem_sortByScoreDesc {r : SearchResult} {l : List SearchResult} :
    r ∈ sortByScoreDesc l ↔ r ∈ l :=
  (List.perm_insertionSort byScoreDesc l).mem_iff

/-- Every claim-relevant projection of a successful retrieval: the final
chunk list is the diversity filter applied to the sorted merged results of
the issued searches. -/
theorem retrieveContext_ok_chunks {o : Oracles} {query : Str} {options : RetrievalOptions}
    {res : RetrievalResult} (h : retrieveContext o query options = .ok res) :
    ∃ queryEmbedding,
      o.embed query = .ok queryEmbedding ∧
      ∃ expandedEmbeddings,
        ((expandQuery o.gen query).1).mapM o.embed = .ok expandedEmbeddings ∧
        res.chunks =
          diversityFilter
            (sortByScoreDesc (mergeDedup
              (((o.search queryEmbedding ((options.topK.getD DEFAULT_TOP_K) * 3)).toOption).getD []
                :: expandedEmbeddings.map
                  (fun emb => ((o.search emb ((options.topK.getD DEFAULT_TOP_K) * 2)).toOption).getD []))))
            (options.minScore.getD MIN_SCORE_THRESHOLD)
            (options.topK.getD DEFAULT_TOP_K) ∧
        res.numIndexQueries = 1 + expandedEmbeddings.length ∧
        res.expandedQueries = (expandQuery o.gen query).1 := by
  unfold retrieveContext at h
  cases hemb : o.embed query with
  | error e => rw [hemb] at h; exact absurd h (by simp)
  | ok qe =>
    rw [hemb] at h
    cases hmap : ((expandQuery o.gen query).1).mapM o.embed with
    | error e => simp only [hmap] at h; exact absurd h (by simp)
    | ok ee =>
      simp only [hmap] at h
      refine ⟨qe, rfl, ee, rfl, ?_, ?_, ?_⟩
      · cases h; simp
      · cases h; simp [Nat.add_comm]
      · cases h; simp

theorem diversityFilter_eq_nil {hits : List SearchResult} {ms : ℚ} {topK : Nat}
    (h : ∀ r ∈ hits, r.score < ms) : diversityFilter hits ms topK = [] := by
  unfold diversityFilter
  have hf : hits.filter (fun r => decide (ms ≤ r.score)) = [] := by
    rw [List.filter_eq_nil_iff]
    intro a ha
    simpa using not_le.mpr (h a ha)
  rw [hf]
  rfl

theorem diversityLoop_length {topK : Nat} :
    ∀ (l : List SearchResult) (tc : Str → Nat) (n : Nat), n < topK →
      n + (diversityLoop topK l tc n).length ≤ topK := by
  intro l
  induction l with
  | nil => intro tc n hn; simpa [diversityLoop] using hn.le
  | cons r rest ih =>
    intro tc n hn
    simp only [diversityLoop]
    split
    · exact ih _ _ hn
    · split
      · simp only [List.length_singleton]; omega
      · next h =>
        have := ih (fun t2 => if t2 = r.metadata.type then tc r.metadata.type + 1 else tc t2)
          (n + 1) (by omega)
        simp only [List.length_cons]
        omega

theorem diversityLoop_type_cap {topK : Nat} :
    ∀ (l : List SearchResult) (tc : Str → Nat) (n : Nat) (t : Str),
      (∀ t2, tc t2 ≤ MAX_PER_TYPE) →
      tc t + ((diversityLoop topK l tc n).filter (fun r => r.metadata.type = t)).length
        ≤ MAX_PER_TYPE := by
  intro l
  induction l with
  | nil => intro tc n t h4; simpa [diversityLoop] using h4 t
  | cons r rest ih =>
    intro tc n t h4
    simp only [diversityLoop]
    split
    · exact ih _ _ _ h4
    · next hlt =>
      have hr4 : tc r.metadata.type < MAX_PER_TYPE := by omega
      have h4x : ∀ t2,
          (fun t2 => if t2 = r.metadata.type then tc r.metadata.type + 1 else tc t2) t2
            ≤ MAX_PER_TYPE := by
        intro t2
        have h42 := h4 t2
        by_cases h : t2 = r.metadata.type <;> simp [h] <;> omega
      split
      · rw [List.filter_cons]
        by_cases ht : r.metadata.type = t
        · subst ht
          rw [if_pos (by simp)]
          simp only [List.filter_nil, List.length_cons, List.length_nil]
          omega
        · rw [if_neg (by simp [ht])]
          simp only [List.filter_nil, List.length_nil]
          have := h4 t
          omega
      · rw [List.filter_cons]
        by_cases ht : r.metadata.type = t
        · subst ht
          rw [if_pos (by simp)]
          have h5 := ih (fun t2 => if t2 = r.metadata.type then tc r.metadata.type + 1 else tc t2)
            (n + 1) r.metadata.type h4x
          have h6 : (fun t2 => if t2 = r.metadata.type then tc r.metadata.type + 1 else tc t2)
              r.metadata.type = tc r.metadata.type + 1 := by simp
          rw [h6] at h5
          simp only [List.length_cons]
          omega
        · rw [if_neg (by simp [ht])]
          have h5 := ih (fun t2 => if t2 = r.metadata.type then tc r.metadata.type + 1 else tc t2)
            (n + 1) t h4x
          have hne : ¬ (t = r.metadata.type) := fun hh => ht hh.symm
          have h6 : (fun t2 => if t2 = r.metadata.type then tc r.metadata.type + 1 else tc t2)
              t = tc t := by simp [hne]
          rw [h6] at h5
          exact h5

-- ---------------------------------------------------------------------------
-- Concrete fixtures for witnesses and counterexamples
-- ---------------------------------------------------------------------------

/-- Metadata of a plain GitHub readme chunk. -/
def mdGit : ChunkMetadata :=
  { type := ("readme").data
    source := SourceSystem.github
    repo := none
    title := none
    date := none
    url := none
    «section» := none }

/-- A sample hit with integral score `1`. -/
def hitOne : SearchResult :=
  { text := ("hello world").data, score := 1, metadata := mdGit }

/-- Oracles whose searches all succeed with no hits. -/
def oEmpty : Oracles :=
  { gen := fun _ => none
    embed := fun _ => .ok ⟨[]⟩
    search := fun _ _ => .ok []
    dateFmt := fun d => d }

/-- A short sample query (one token). -/
def qYes : Str := ("yes").data

/-- Empty caller options (all defaults apply). -/
def optsNone : RetrievalOptions := ⟨none, none⟩

/-- The retrieval result of `oEmpty` on any query with default options. -/
def emptyResult : RetrievalResult :=
  { chunks := []
    sources := []
    contextText := []
    expandedQueries := []
    totalChunksSearched := 0
    topScores := []
    confidence :=
      { level := ConfidenceLevel.low
        score := 0
        reason := ("No relevant evidence retrieved for this query.").data }
    numIndexQueries := 1 }

/-- C5: for every retrieval call, every hit in the returned chunk list has
score at least `minScore` (the caller-supplied floor, defaulting to 0.25);
and when every hit any issued search can return scores below `minScore`,
the returned chunk list is empty. -/
theorem claim_C5_score_floor (o : Oracles) (query : Str) (options : RetrievalOptions)
    (res : RetrievalResult) (h : retrieveContext o query options = .ok res) :
    (∀ r ∈ res.chunks, options.minScore.getD MIN_SCORE_THRESHOLD ≤ r.score) ∧
    ((∀ emb k r, r ∈ ((o.search emb k).toOption).getD [] →
        r.score < options.minScore.getD MIN_SCORE_THRESHOLD) → res.chunks = []) := by
  obtain ⟨qe, hemb, ee, hmap, hchunks, -, -⟩ := retrieveContext_ok_chunks h
  constructor
  · intro r hr
    rw [hchunks] at hr
    exact diversityFilter_mem_score hr
  · intro hall
    rw [hchunks]
    apply diversityFilter_eq_nil
    intro r hr
    rw [mem_sortByScoreDesc] at hr
    have hr2 := (mergeDedupAux_sublist _ _).subset hr
    rw [List.mem_flatten] at hr2
    obtain ⟨s, hs, hrs⟩ := hr2
    rcases List.mem_cons.mp hs with h1 | h2
    · subst h1
      exact hall _ _ _ hrs
    · obtain ⟨e, -, he⟩ := List.mem_map.mp h2
      rw [← he] at hrs
      exact hall _ _ _ hrs

/-- Witness for C5: the score-floor property instantiated at concrete
empty-index oracles and a concrete successful retrieval. -/
theorem claim_C5_score_floor_witness :
    (∀ r ∈ emptyResult.chunks, (optsNone.minScore).getD MIN_SCORE_THRESHOLD ≤ r.score) ∧
    ((∀ emb k r, r ∈ ((oEmpty.search emb k).toOption).getD [] →
        r.score < (optsNone.minScore).getD MIN_SCORE_THRESHOLD) → emptyResult.chunks = []) :=
  claim_C5_score_floor oEmpty qYes optsNone emptyResult rfl

theorem flatten_eq_nil_of_all {α : Type} (L : List (List α)) (h : ∀ s ∈ L, s = []) :
    L.flatten = [] := by
  induction L with
  | nil => rfl
  | cons s rest ih =>
    rw [List.flatten_cons, h s (by simp), ih (fun x hx => h x (List.mem_cons_of_mem _ hx))]
    rfl

/-- C7: in every successful retrieval against a vector store that never
returns more hits than requested — the repository's
`VectraVectorStore.search` guarantees this, ending in `.slice(0, topK)` —
each category occurs at most `MAX_PER_TYPE = 4` times among the returned
chunks, and the returned chunk list has length at most `topK`.  (At
`topK = 0` both index queries request `0` candidates, so the pool and the
result are empty; at `topK ≥ 1` the loop's post-push length test bounds
the result.) -/
theorem claim_C7_diversity_caps (o : Oracles) (query : Str) (options : RetrievalOptions)
    (res : RetrievalResult)
    (hsearch : ∀ emb k, (((o.search emb k).toOption).getD []).length ≤ k)
    (h : retrieveContext o query options = .ok res) :
    (∀ t, (res.chunks.filter (fun r => r.metadata.type = t)).length ≤ MAX_PER_TYPE) ∧
    res.chunks.length ≤ options.topK.getD DEFAULT_TOP_K := by
  obtain ⟨qe, hemb, ee, hmap, hchunks, -, -⟩ := retrieveContext_ok_chunks h
  constructor
  · intro t
    rw [hchunks]
    unfold diversityFilter
    have hcap := @diversityLoop_type_cap (options.topK.getD DEFAULT_TOP_K)
      (((sortByScoreDesc (mergeDedup
        (((o.search qe ((options.topK.getD DEFAULT_TOP_K) * 3)).toOption).getD []
          :: ee.map (fun emb =>
            ((o.search emb ((options.topK.getD DEFAULT_TOP_K) * 2)).toOption).getD [])))).filter
        (fun r => (options.minScore.getD MIN_SCORE_THRESHOLD) ≤ r.score)))
      (fun _ => 0) 0 t (by intro t2; simp [MAX_PER_TYPE])
    omega
  · by_cases hK : options.topK.getD DEFAULT_TOP_K = 0
    · have hsets : ∀ s ∈
          (((o.search qe ((options.topK.getD DEFAULT_TOP_K) * 3)).toOption).getD []
            :: ee.map (fun emb =>
              ((o.search emb ((options.topK.getD DEFAULT_TOP_K) * 2)).toOption).getD [])),
          s = [] := by
        intro s hs
        rcases List.mem_cons.mp hs with h1 | h2
        · rw [h1]
          have hle := hsearch qe ((options.topK.getD DEFAULT_TOP_K) * 3)
          exact List.length_eq_zero.mp (by omega)
        · obtain ⟨e, -, he⟩ := List.mem_map.mp h2
          rw [← he]
          have hle := hsearch e ((options.topK.getD DEFAULT_TOP_K) * 2)
          exact List.length_eq_zero.mp (by omega)
      have hmerge : mergeDedup
          (((o.search qe ((options.topK.getD DEFAULT_TOP_K) * 3)).toOption).getD []
            :: ee.map (fun emb =>
              ((o.search emb ((options.topK.getD DEFAULT_TOP_K) * 2)).toOption).getD []))
          = [] := by
        unfold mergeDedup
        rw [flatten_eq_nil_of_all _ hsets]
        rfl
      rw [hchunks, hmerge]
      exact Nat.zero_le _
    · have h1 : 1 ≤ options.topK.getD DEFAULT_TOP_K := Nat.one_le_iff_ne_zero.mpr hK
      rw [hchunks]
      unfold diversityFilter
      have hlen := @diversityLoop_length (options.topK.getD DEFAULT_TOP_K)
        (((sortByScoreDesc (mergeDedup
          (((o.search qe ((options.topK.getD DEFAULT_TOP_K) * 3)).toOption).getD []
            :: ee.map (fun emb =>
              ((o.search emb ((options.topK.getD DEFAULT_TOP_K) * 2)).toOption).getD [])))).filter
          (fun r => (options.minScore.getD MIN_SCORE_THRESHOLD) ≤ r.score)))
        (fun _ => 0) 0 (by omega)
      omega

/-- Witness for C7 at concrete empty-index oracles (whose searches
trivially respect the requested count). -/
theorem claim_C7_diversity_caps_witness :
    (∀ t, (emptyResult.chunks.filter (fun r => r.metadata.type = t)).length ≤ MAX_PER_TYPE) ∧
    emptyResult.chunks.length ≤ (optsNone.topK).getD DEFAULT_TOP_K :=
  claim_C7_diversity_caps oEmpty qYes optsNone emptyResult (fun _ k => Nat.zero_le k) rfl

-- ---------------------------------------------------------------------------
-- Merge/dedup characterization (C6)
-- ---------------------------------------------------------------------------

theorem mergeDedupAux_filter (k : Str) :
    ∀ (l : List SearchResult) (seen : List Str),
      (mergeDedupAux l seen).filter (fun h => dedupeKey h = k)
        = if k ∈ seen then [] else (l.find? (fun h => dedupeKey h = k)).toList := by
  intro l
  induction l with
  | nil => intro seen; simp [mergeDedupAux]
  | cons r rest ih =>
    intro seen
    simp only [mergeDedupAux]
    by_cases hmem : dedupeKey r ∈ seen
    · rw [if_pos hmem, ih]
      by_cases hk : k ∈ seen
      · rw [if_pos hk, if_pos hk]
      · rw [if_neg hk, if_neg hk]
        have hne : ¬ (dedupeKey r = k) := fun h => hk (h ▸ hmem)
        rw [List.find?_cons_of_neg _ (by simpa using hne)]
    · rw [if_neg hmem, List.filter_cons]
      by_cases hk : dedupeKey r = k
      · rw [if_pos (by simpa using hk), ih,
          if_pos (show k ∈ dedupeKey r :: seen from hk ▸ List.mem_cons_self _ _),
          if_neg (fun h => hmem (hk ▸ h)),
          List.find?_cons_of_pos _ (by simpa using hk)]
        rfl
      · rw [if_neg (by simpa using hk), ih, List.find?_cons_of_neg _ (by simpa using hk)]
        by_cases hks : k ∈ seen
        · rw [if_pos hks, if_pos (List.mem_cons_of_mem _ hks)]
        · rw [if_neg hks,
            if_neg (by
              intro hkc
              rcases List.mem_cons.mp hkc with h1 | h2
              · exact hk h1.symm
              · exact hks h2)]

theorem mergeDedupAux_key_nodup :
    ∀ (l : List SearchResult) (seen : List Str),
      ((mergeDedupAux l seen).map dedupeKey).Nodup ∧
      ∀ h ∈ mergeDedupAux l seen, dedupeKey h ∉ seen := by
  intro l
  induction l with
  | nil => intro seen; simp [mergeDedupAux]
  | cons r rest ih =>
    intro seen
    simp only [mergeDedupAux]
    by_cases hmem : dedupeKey r ∈ seen
    · rw [if_pos hmem]
      exact ih seen
    · rw [if_neg hmem]
      obtain ⟨ihnodup, ihseen⟩ := ih (dedupeKey r :: seen)
      refine ⟨?_, ?_⟩
      · rw [List.map_cons, List.nodup_cons]
        refine ⟨?_, ihnodup⟩
        intro hcontra
        obtain ⟨h2, hh2, hkey⟩ := List.mem_map.mp hcontra
        exact (ihseen h2 hh2) (hkey ▸ List.mem_cons_self _ _)
      · intro h hh
        rcases List.mem_cons.mp hh with h1 | h2
        · exact h1 ▸ hmem
        · exact fun hc => (ihseen h h2) (List.mem_cons_of_mem _ hc)

/-- C6: in the merged hit set of the multi-query search step the retained
hits have pairwise-distinct composite dedup keys, and for every key the
single retained hit carrying it is the first hit with that key in the
concatenation of the per-query result sets (primary query first), so the
earlier-issued query wins on key collisions. -/
theorem claim_C6_merge_first_wins (resultSets : List (List SearchResult)) :
    ((mergeDedup resultSets).map dedupeKey).Nodup ∧
    ∀ k, (mergeDedup resultSets).filter (fun h => dedupeKey h = k)
      = ((resultSets.flatten).find? (fun h => dedupeKey h = k)).toList := by
  refine ⟨(mergeDedupAux_key_nodup resultSets.flatten []).1, ?_⟩
  intro k
  unfold mergeDedup
  rw [mergeDedupAux_filter]
  simp

-- ---------------------------------------------------------------------------
-- Query expansion short-circuit (C9)
-- ---------------------------------------------------------------------------

/-- C9: a query of fewer than 4 whitespace-delimited tokens (after
trimming) makes `expandQuery` return the empty sequence without issuing
the generation call, and every successful retrieval for such a query
issues exactly one index query (for the primary embedding). -/
theorem claim_C9_short_query (o : Oracles) (query : Str) (options : RetrievalOptions)
    (hshort : jsTokenCount query < 4) :
    expandQuery o.gen query = ([], false) ∧
    ∀ res, retrieveContext o query options = .ok res →
      res.expandedQueries = [] ∧ res.numIndexQueries = 1 := by
  have hexp : expandQuery o.gen query = ([], false) := by
    unfold expandQuery
    rw [if_pos hshort]
  refine ⟨hexp, ?_⟩
  intro res h
  obtain ⟨qe, hemb, ee, hmap, -, hnum, hexpq⟩ := retrieveContext_ok_chunks h
  rw [hexp] at hexpq hmap
  have hee : ee = [] := by
    have h0 : (Except.ok [] : Except Unit (List Embedding)) = .ok ee := hmap
    injection h0 with h1
    exact h1.symm
  exact ⟨hexpq, by rw [hnum, hee]; rfl⟩

/-- Witness for C9 at the concrete one-token query. -/
theorem claim_C9_short_query_witness :
    jsTokenCount qYes < 4 ∧
    (expandQuery oEmpty.gen qYes = ([], false) ∧
     ∀ res, retrieveContext oEmpty qYes optsNone = .ok res →
       res.expandedQueries = [] ∧ res.numIndexQueries = 1) :=
  ⟨by decide, claim_C9_short_query oEmpty qYes optsNone (by decide)⟩

-- ---------------------------------------------------------------------------
-- Failure isolation of the index queries (C1)
-- ---------------------------------------------------------------------------

/-- Oracles whose vector-index search always rejects; embeddings succeed. -/
def oSearchFail : Oracles :=
  { gen := fun _ => none
    embed := fun _ => .ok ⟨[]⟩
    search := fun _ _ => .error ()
    dateFmt := fun d => d }

/-- Counterexample to C1 as stated: the primary index query fails (every
search call of `oSearchFail` rejects, in particular the primary one for
the primary embedding and `topK * 3 = 30` candidates), yet
`retrieveContext` resolves successfully with an empty evidence set instead
of propagating a pipeline-level failure. -/
theorem claim_C1_counterexample :
    oSearchFail.search ⟨[]⟩ (DEFAULT_TOP_K * 3) = .error () ∧
    retrieveContext oSearchFail qYes optsNone = .ok emptyResult :=
  ⟨rfl, rfl⟩

theorem mapM_embed_ok (embed : Str → Except Unit Embedding)
    (h : ∀ s, (embed s).isOk = true) :
    ∀ l : List Str, ∃ ee, l.mapM embed = .ok ee := by
  intro l
  induction l with
  | nil => exact ⟨[], rfl⟩
  | cons x xs ih =>
    obtain ⟨ee, hee⟩ := ih
    obtain ⟨v, hv⟩ : ∃ v, embed x = .ok v := by
      cases hx : embed x with
      | error e => have h2 := h x; rw [hx] at h2; exact absurd h2 (by simp [Except.isOk, Except.toBool])
      | ok v => exact ⟨v, rfl⟩
    exact ⟨v :: ee, by rw [List.mapM_cons, hv, hee]; rfl⟩

/-- C1 (amended): every index-query failure — the primary query's
included — is swallowed by the per-promise `.catch(() => [])`: provided
the embedding calls succeed, `retrieveContext` resolves (never rejects),
and its result is exactly the one obtained when every failed search is
replaced by a successful search returning no hits.  Only embedding
failures propagate as pipeline-level failures. -/
theorem claim_C1_search_failure_swallowed (o : Oracles) (query : Str)
    (options : RetrievalOptions) (hembed : ∀ s, (o.embed s).isOk = true) :
    (retrieveContext o query options).isOk = true ∧
    retrieveContext o query options =
      retrieveContext
        { o with search := fun emb k => .ok (((o.search emb k).toOption).getD []) }
        query options := by
  obtain ⟨qe, hqe⟩ : ∃ qe, o.embed query = .ok qe := by
    cases hq : o.embed query with
    | error e => have h2 := hembed query; rw [hq] at h2; exact absurd h2 (by simp [Except.isOk, Except.toBool])
    | ok v => exact ⟨v, rfl⟩
  obtain ⟨ee, hee⟩ := mapM_embed_ok o.embed hembed (expandQuery o.gen query).1
  constructor
  · simp only [retrieveContext, hqe, hee]
    rfl
  · simp only [retrieveContext, hqe, hee, Except.toOption, Option.getD]

/-- Witness for C1 (amended) at the concrete all-searches-fail oracles. -/
theorem claim_C1_search_failure_swallowed_witness :
    (retrieveContext oSearchFail qYes optsNone).isOk = true ∧
    retrieveContext oSearchFail qYes optsNone =
      retrieveContext
        { oSearchFail with
            search := fun emb k => .ok (((oSearchFail.search emb k).toOption).getD []) }
        qYes optsNone :=
  claim_C1_search_failure_swallowed oSearchFail qYes optsNone (fun _ => rfl)

-- ---------------------------------------------------------------------------
-- Confidence monotonicity (C2)
-- ---------------------------------------------------------------------------

theorem min_one_lt_min_one {x y : ℚ} (h1 : x < 1) (h2 : x < y) : min 1 x < min 1 y := by
  rw [min_eq_right h1.le]
  exact lt_min h1 h2

theorem conf_branch_score (sc : ℚ) (p q : Prop) [Decidable p] [Decidable q] (r1 r2 r3 : Str) :
    (if p then ({ level := ConfidenceLevel.high, score := sc, reason := r1 } : RetrievalConfidence)
     else if q then { level := ConfidenceLevel.medium, score := sc, reason := r2 }
     else { level := ConfidenceLevel.low, score := sc, reason := r3 }).score = sc := by
  split
  · rfl
  · split <;> rfl

/-- Evaluation of the confidence score on a non-empty hit list. -/
theorem scoreConfidence_score_eq (chunks : List SearchResult) (h : ¬ (chunks = [])) :
    (scoreConfidence chunks).score
      = min 1 ((((chunks.head?).map (fun c => c.score)).getD 0) * (55/100)
          + (((chunks.take 3).map (fun c => c.score)).sum / (((chunks.take 3).length : ℚ))) * (35/100)
          + min (((keepFirst (chunks.map confSourceKey)).length : ℚ) / 3) 1 * (1/10)) := by
  simp only [scoreConfidence, if_neg h, conf_branch_score]

/-- C2: for a non-empty hit list whose similarity scores lie in the
index's [0, 1] score range (spec §2), strictly increasing the score of the
top (first) hit — holding every other hit's score and all metadata fixed —
strictly increases the numeric confidence score. -/
theorem claim_C2_confidence_monotone (a : SearchResult) (rest : List SearchResult) (s2 : ℚ)
    (hlt : a.score < s2) (hle1 : s2 ≤ 1) (hrest : ∀ r ∈ rest, r.score ≤ 1) :
    (scoreConfidence (a :: rest)).score
      < (scoreConfidence ({ a with score := s2 } :: rest)).score := by
  have hne1 : ¬ ((a :: rest) = []) := by simp
  have hne2 : ¬ (({ a with score := s2 } :: rest) = []) := by simp
  have ht1 : a.score < 1 := lt_of_lt_of_le hlt hle1
  rw [scoreConfidence_score_eq _ hne1, scoreConfidence_score_eq _ hne2]
  have hkey : ((({ a with score := s2 } : SearchResult) :: rest).map confSourceKey)
      = ((a :: rest).map confSourceKey) := by
    simp [confSourceKey]
  rw [hkey]
  have hm1 : min (((keepFirst ((a :: rest).map confSourceKey)).length : ℚ) / 3) 1 ≤ 1 :=
    min_le_right _ _
  have hm0 : 0 ≤ min (((keepFirst ((a :: rest).map confSourceKey)).length : ℚ) / 3) 1 :=
    le_min (div_nonneg (Nat.cast_nonneg _) (by norm_num)) zero_le_one
  rcases rest with - | ⟨b, rest2⟩
  · have hH1 : ((([a] : List SearchResult).head?).map (fun c => c.score)).getD 0 = a.score := by
      simp
    have hH2 : ((([({ a with score := s2 } : SearchResult)]).head?).map
        (fun c => c.score)).getD 0 = s2 := by simp
    have hA1 : ((([a] : List SearchResult).take 3).map (fun c => c.score)).sum
        / ((([a] : List SearchResult).take 3).length : ℚ) = a.score := by
      simp
    have hA2 : ((([({ a with score := s2 } : SearchResult)]).take 3).map (fun c => c.score)).sum
        / ((([({ a with score := s2 } : SearchResult)]).take 3).length : ℚ) = s2 := by
      simp
    rw [hH1, hH2, hA1, hA2]
    apply min_one_lt_min_one <;> linarith
  · rcases rest2 with - | ⟨c, rest3⟩
    · have hb : b.score ≤ 1 := hrest b (by simp)
      have hH1 : ((([a, b] : List SearchResult).head?).map (fun c => c.score)).getD 0
          = a.score := by simp
      have hH2 : ((([({ a with score := s2 } : SearchResult), b]).head?).map
          (fun c => c.score)).getD 0 = s2 := by simp
      have hA1 : ((([a, b] : List SearchResult).take 3).map (fun c => c.score)).sum
          / ((([a, b] : List SearchResult).take 3).length : ℚ) = (a.score + b.score) / 2 := by
        simp
      have hA2 : ((([({ a with score := s2 } : SearchResult), b]).take 3).map
            (fun c => c.score)).sum
          / ((([({ a with score := s2 } : SearchResult), b]).take 3).length : ℚ)
          = (s2 + b.score) / 2 := by
        simp
      rw [hH1, hH2, hA1, hA2]
      apply min_one_lt_min_one <;> linarith
    · have hb : b.score ≤ 1 := hrest b (by simp)
      have hc : c.score ≤ 1 := hrest c (by simp)
      have hH1 : (((a :: b :: c :: rest3).head?).map (fun x => x.score)).getD 0 = a.score := by
        simp
      have hH2 : ((( ({ a with score := s2 } : SearchResult) :: b :: c :: rest3).head?).map
          (fun x => x.score)).getD 0 = s2 := by simp
      have hA1 : (((a :: b :: c :: rest3).take 3).map (fun x => x.score)).sum
          / (((a :: b :: c :: rest3).take 3).length : ℚ)
          = (a.score + (b.score + c.score)) / 3 := by
        simp [List.take_succ_cons]
      have hA2 : ((( ({ a with score := s2 } : SearchResult) :: b :: c :: rest3).take 3).map
            (fun x => x.score)).sum
          / ((( ({ a with score := s2 } : SearchResult) :: b :: c :: rest3).take 3).length : ℚ)
          = (s2 + (b.score + c.score)) / 3 := by
        simp [List.take_succ_cons]
      rw [hH1, hH2, hA1, hA2]
      apply min_one_lt_min_one <;> linarith

/-- A sample hit with score `0`. -/
def hitZero : SearchResult :=
  { text := ("hello world").data, score := 0, metadata := mdGit }

/-- Witness for C2: raising the single hit's score from 0 to 1 strictly
increases the confidence score. -/
theorem claim_C2_confidence_monotone_witness :
    (hitZero.score < 1 ∧ (1 : ℚ) ≤ 1) ∧
    (scoreConfidence [hitZero]).score
      < (scoreConfidence [{ hitZero with score := 1 }]).score :=
  ⟨⟨by decide, le_refl 1⟩,
    claim_C2_confidence_monotone hitZero [] 1 (by decide) (le_refl 1) (by simp)⟩

-- ---------------------------------------------------------------------------
-- Frame property of `buildContext` (C10)
-- ---------------------------------------------------------------------------

theorem ArrayStore.alloc_snd (st : ArrayStore) (xs : List SearchResult) :
    (st.alloc xs).2 = st.arrays.length := rfl

theorem ArrayStore.read_alloc_old {st : ArrayStore} (xs : List SearchResult) {r : ArrayRef}
    (h : r < st.arrays.length) : (st.alloc xs).1.read r = st.read r := by
  unfold ArrayStore.alloc ArrayStore.read
  simp only []
  rw [List.getD_eq_getElem?_getD, List.getElem?_append_left h, ← List.getD_eq_getElem?_getD]

theorem ArrayStore.read_alloc_new (st : ArrayStore) (xs : List SearchResult) :
    (st.alloc xs).1.read (st.alloc xs).2 = xs := by
  unfold ArrayStore.alloc ArrayStore.read
  simp only []
  rw [List.getD_eq_getElem?_getD, List.getElem?_concat_length]
  rfl

theorem ArrayStore.read_write_self (st : ArrayStore) (r : ArrayRef) (xs : List SearchResult)
    (h : r < st.arrays.length) : (st.write r xs).read r = xs := by
  unfold ArrayStore.write ArrayStore.read
  simp only []
  rw [List.getD_eq_getElem?_getD, List.getElem?_set_eq_of_lt _ h]
  rfl

theorem ArrayStore.read_write_ne (st : ArrayStore) {r r2 : ArrayRef} (xs : List SearchResult)
    (h : r ≠ r2) : (st.write r xs).read r2 = st.read r2 := by
  unfold ArrayStore.write ArrayStore.read
  simp only []
  rw [List.getD_eq_getElem?_getD, List.getElem?_set_ne h, ← List.getD_eq_getElem?_getD]

/-- C10: `buildContext` never mutates its input array: the spread copy
`[...results]` is a fresh array object and the in-place sort targets that
copy, so after the call the caller's array holds the same elements in the
same order, while the returned result is the one computed from the sorted
copy (i.e. agrees with the pure `buildContext`). -/
theorem claim_C10_no_mutation (dateFmt : Str → Str) (st : ArrayStore) (resultsRef : ArrayRef)
    (href : resultsRef < st.arrays.length) :
    ((buildContextProg dateFmt st resultsRef).2).read resultsRef = st.read resultsRef ∧
    (buildContextProg dateFmt st resultsRef).1 = buildContext dateFmt (st.read resultsRef) := by
  have hne : (st.alloc (st.read resultsRef)).2 ≠ resultsRef := by
    rw [ArrayStore.alloc_snd]
    exact Nat.ne_of_gt href
  have hlt : (st.alloc (st.read resultsRef)).2 < (st.alloc (st.read resultsRef)).1.arrays.length := by
    rw [ArrayStore.alloc_snd]
    unfold ArrayStore.alloc
    simp
  have hcopy : ((st.alloc (st.read resultsRef)).1.write (st.alloc (st.read resultsRef)).2
        (sortByScoreDesc ((st.alloc (st.read resultsRef)).1.read
          (st.alloc (st.read resultsRef)).2))).read (st.alloc (st.read resultsRef)).2
      = sortByScoreDesc (st.read resultsRef) := by
    rw [ArrayStore.read_write_self _ _ _ hlt, ArrayStore.read_alloc_new]
  unfold buildContextProg
  by_cases hnil : st.read resultsRef = []
  · rw [if_pos hnil]
    unfold buildContext
    rw [if_pos hnil]
    exact ⟨rfl, rfl⟩
  · rw [if_neg hnil]
    constructor
    · show ((st.alloc (st.read resultsRef)).1.write (st.alloc (st.read resultsRef)).2 _).read
          resultsRef = st.read resultsRef
      rw [ArrayStore.read_write_ne _ _ hne, ArrayStore.read_alloc_old _ href]
    · show ContextBuildResult.mk _ _ = buildContext dateFmt (st.read resultsRef)
      unfold buildContext
      rw [if_neg hnil]
      rw [hcopy]

/-- Witness for C10 at a concrete one-array store. -/
theorem claim_C10_no_mutation_witness :
    ((buildContextProg (fun d => d) ⟨[[hitOne]]⟩ 0).2).read 0
        = (⟨[[hitOne]]⟩ : ArrayStore).read 0 ∧
    (buildContextProg (fun d => d) ⟨[[hitOne]]⟩ 0).1
        = buildContext (fun d => d) ((⟨[[hitOne]]⟩ : ArrayStore).read 0) :=
  claim_C10_no_mutation (fun d => d) ⟨[[hitOne]]⟩ 0 (by decide)

-- ---------------------------------------------------------------------------
-- Reference decomposition of the token-budget loop (C4, C8)
-- ---------------------------------------------------------------------------

/-- The formatted blocks of consecutive items starting at 0-based index
`idx` (the block of the item at index `i` carries citation id `S(i+1)`). -/
def blocksFrom (dateFmt : Str → Str) (idx : Nat) : List SearchResult → List Str
  | [] => []
  | r :: rest => formatChunk dateFmt (sid (idx + 1)) r :: blocksFrom dateFmt (idx + 1) rest

/-- The citation records of consecutive items starting at index `idx`. -/
def sourcesFrom (idx : Nat) : List SearchResult → List ChunkSource
  | [] => []
  | r :: rest => toChunkSource (sid (idx + 1)) r :: sourcesFrom (idx + 1) rest

/-- Total estimated tokens of a list of formatted blocks. -/
def tokenSum (parts : List Str) : Nat := (parts.map estimateTokens).sum

/-- The truncated block of the item at index `idx` when `remaining` tokens
of budget are left: its text is sliced to `remaining * 4` characters and
suffixed with the ellipsis marker. -/
def truncBlock (dateFmt : Str → Str) (idx remaining : Nat) (r : SearchResult) : Str :=
  formatChunk dateFmt (sid (idx + 1))
    { r with text := r.text.take (remaining * 4) ++ ("...").data }

theorem blocksFrom_cons (dateFmt : Str → Str) (idx : Nat) (r : SearchResult)
    (rest : List SearchResult) :
    blocksFrom dateFmt idx (r :: rest)
      = formatChunk dateFmt (sid (idx + 1)) r :: blocksFrom dateFmt (idx + 1) rest := rfl

theorem sourcesFrom_length (idx : Nat) (l : List SearchResult) :
    (sourcesFrom idx l).length = l.length := by
  induction l generalizing idx with
  | nil => rfl
  | cons r rest ih => simp [sourcesFrom, ih]

theorem sourcesFrom_ids (l : List SearchResult) :
    ∀ idx, (sourcesFrom idx l).map (fun s => s.sourceId)
      = (List.range l.length).map (fun i => sid (idx + i + 1)) := by
  induction l with
  | nil => intro idx; rfl
  | cons r rest ih =>
    intro idx
    simp only [sourcesFrom, List.map_cons, List.length_cons, List.range_succ_eq_map,
      List.map_map]
    congr 1
    rw [ih (idx + 1)]
    apply List.map_congr_left
    intro i hi
    show sid (idx + 1 + i + 1) = sid (idx + (i + 1) + 1)
    congr 1
    omega

theorem sourcesFrom_mem_score {s : ChunkSource} :
    ∀ (l : List SearchResult) (idx : Nat), s ∈ sourcesFrom idx l →
      ∃ r ∈ l, s.score = r.score := by
  intro l
  induction l with
  | nil => intro idx h; simp [sourcesFrom] at h
  | cons r rest ih =>
    intro idx h
    simp only [sourcesFrom, List.mem_cons] at h
    rcases h with h1 | h2
    · refine ⟨r, by simp, ?_⟩
      rw [h1]
      rfl
    · obtain ⟨r2, hr2, hsc⟩ := ih (idx + 1) h2
      exact ⟨r2, List.mem_cons_of_mem _ hr2, hsc⟩

theorem sourcesFrom_pairwise (l : List SearchResult) (idx : Nat)
    (h : l.Pairwise byScoreDesc) :
    (sourcesFrom idx l).Pairwise (fun p q => q.score ≤ p.score) := by
  induction l generalizing idx with
  | nil => simp [sourcesFrom]
  | cons r rest ih =>
    rw [List.pairwise_cons] at h
    simp only [sourcesFrom, List.pairwise_cons]
    refine ⟨?_, ih (idx + 1) h.2⟩
    intro s hs
    obtain ⟨r2, hr2, hsc⟩ := sourcesFrom_mem_score rest (idx + 1) hs
    rw [hsc]
    exact h.1 r2 hr2

theorem dedupChunksAux_sublist (l : List SearchResult) (seen : List Str) :
    (dedupChunksAux l seen).Sublist l := by
  induction l generalizing seen with
  | nil => simp [dedupChunksAux]
  | cons r rest ih =>
    simp only [dedupChunksAux]
    split
    · exact (ih _).cons _
    · exact (ih _).cons₂ r

theorem tokenSum_nil : tokenSum [] = 0 := rfl

theorem tokenSum_cons (b : Str) (parts : List Str) :
    tokenSum (b :: parts) = estimateTokens b + tokenSum parts := by
  simp [tokenSum]

theorem buildLoop_cons_fit (dateFmt : Str → Str) (idx total : Nat) (r : SearchResult)
    (rest : List SearchResult)
    (h : ¬ (MAX_CONTEXT_TOKENS <
        total + estimateTokens (formatChunk dateFmt (sid (idx + 1)) r))) :
    buildLoop dateFmt (r :: rest) idx total
      = (formatChunk dateFmt (sid (idx + 1)) r
            :: (buildLoop dateFmt rest (idx + 1)
                (total + estimateTokens (formatChunk dateFmt (sid (idx + 1)) r))).1,
         toChunkSource (sid (idx + 1)) r
            :: (buildLoop dateFmt rest (idx + 1)
                (total + estimateTokens (formatChunk dateFmt (sid (idx + 1)) r))).2) := by
  rcases hb : buildLoop dateFmt rest (idx + 1)
      (total + estimateTokens (formatChunk dateFmt (sid (idx + 1)) r)) with ⟨parts, sources⟩
  simp only [buildLoop, hb]
  rw [if_neg h]

theorem buildLoop_cons_over_room (dateFmt : Str → Str) (idx total : Nat) (r : SearchResult)
    (rest : List SearchResult)
    (h : MAX_CONTEXT_TOKENS <
        total + estimateTokens (formatChunk dateFmt (sid (idx + 1)) r))
    (h2 : 100 < MAX_CONTEXT_TOKENS - total) :
    buildLoop dateFmt (r :: rest) idx total
      = ([truncBlock dateFmt idx (MAX_CONTEXT_TOKENS - total) r],
         [toChunkSource (sid (idx + 1)) r]) := by
  simp only [buildLoop, truncBlock]
  rw [if_pos h, if_pos h2]

theorem buildLoop_cons_over_noroom (dateFmt : Str → Str) (idx total : Nat) (r : SearchResult)
    (rest : List SearchResult)
    (h : MAX_CONTEXT_TOKENS <
        total + estimateTokens (formatChunk dateFmt (sid (idx + 1)) r))
    (h2 : ¬ (100 < MAX_CONTEXT_TOKENS - total)) :
    buildLoop dateFmt (r :: rest) idx total = ([], []) := by
  simp only [buildLoop]
  rw [if_pos h, if_neg h2]

theorem blocksFrom_take_succ (dateFmt : Str → Str) (idx k : Nat) (r : SearchResult)
    (rest : List SearchResult) :
    blocksFrom dateFmt idx ((r :: rest).take (k + 1))
      = formatChunk dateFmt (sid (idx + 1)) r :: blocksFrom dateFmt (idx + 1) (rest.take k) := by
  rw [List.take_succ_cons]
  rfl

theorem sourcesFrom_take_succ (idx k : Nat) (r : SearchResult) (rest : List SearchResult) :
    sourcesFrom idx ((r :: rest).take (k + 1))
      = toChunkSource (sid (idx + 1)) r :: sourcesFrom (idx + 1) (rest.take k) := by
  rw [List.take_succ_cons]
  rfl

/-- Full characterization of the token-budget loop of `buildContext`:
there is a cut position `k` such that the first `k` items are included in
full and fit the budget, and at the cut either the list is exhausted, or
the next block overflows and is dropped (no room) or included once in
truncated form (room), with nothing at all after it. -/
theorem buildLoop_spec (dateFmt : Str → Str) :
    ∀ (l : List SearchResult) (idx total : Nat), total ≤ MAX_CONTEXT_TOKENS →
    ∃ k, k ≤ l.length ∧
      total + tokenSum (blocksFrom dateFmt idx (l.take k)) ≤ MAX_CONTEXT_TOKENS ∧
      (((buildLoop dateFmt l idx total).1 = blocksFrom dateFmt idx (l.take k) ∧
        (buildLoop dateFmt l idx total).2 = sourcesFrom idx (l.take k) ∧
        (k = l.length ∨ ∃ r, l[k]? = some r ∧
          MAX_CONTEXT_TOKENS <
            total + tokenSum (blocksFrom dateFmt idx (l.take k))
              + estimateTokens (formatChunk dateFmt (sid (idx + k + 1)) r) ∧
          MAX_CONTEXT_TOKENS - (total + tokenSum (blocksFrom dateFmt idx (l.take k))) ≤ 100))
       ∨ (∃ r, l[k]? = some r ∧
          MAX_CONTEXT_TOKENS <
            total + tokenSum (blocksFrom dateFmt idx (l.take k))
              + estimateTokens (formatChunk dateFmt (sid (idx + k + 1)) r) ∧
          100 < MAX_CONTEXT_TOKENS - (total + tokenSum (blocksFrom dateFmt idx (l.take k))) ∧
          (buildLoop dateFmt l idx total).1
            = blocksFrom dateFmt idx (l.take k)
              ++ [truncBlock dateFmt (idx + k)
                  (MAX_CONTEXT_TOKENS - (total + tokenSum (blocksFrom dateFmt idx (l.take k)))) r] ∧
          (buildLoop dateFmt l idx total).2 = sourcesFrom idx (l.take (k + 1)))) := by
  intro l
  induction l with
  | nil =>
    intro idx total htotal
    refine ⟨0, by simp, by simpa [blocksFrom, tokenSum] using htotal, ?_⟩
    left
    exact ⟨rfl, rfl, Or.inl rfl⟩
  | cons r rest ih =>
    intro idx total htotal
    by_cases hover : MAX_CONTEXT_TOKENS <
        total + estimateTokens (formatChunk dateFmt (sid (idx + 1)) r)
    · by_cases hroom : 100 < MAX_CONTEXT_TOKENS - total
      · refine ⟨0, by simp, by simpa [blocksFrom, tokenSum] using htotal, Or.inr ?_⟩
        refine ⟨r, by simp, ?_, ?_, ?_, ?_⟩
        · simpa [blocksFrom, tokenSum] using hover
        · simpa [blocksFrom, tokenSum] using hroom
        · rw [buildLoop_cons_over_room dateFmt idx total r rest hover hroom]
          simp [blocksFrom, tokenSum]
        · rw [buildLoop_cons_over_room dateFmt idx total r rest hover hroom]
          rw [sourcesFrom_take_succ]
          rfl
      · refine ⟨0, by simp, by simpa [blocksFrom, tokenSum] using htotal, Or.inl ?_⟩
        refine ⟨?_, ?_, Or.inr ⟨r, by simp, ?_, ?_⟩⟩
        · rw [buildLoop_cons_over_noroom dateFmt idx total r rest hover hroom]
          rfl
        · rw [buildLoop_cons_over_noroom dateFmt idx total r rest hover hroom]
          rfl
        · simpa [blocksFrom, tokenSum] using hover
        · simp only [List.take_zero, blocksFrom, tokenSum, List.map_nil, List.sum_nil,
            Nat.add_zero]
          omega
    · have hfit : total + estimateTokens (formatChunk dateFmt (sid (idx + 1)) r)
          ≤ MAX_CONTEXT_TOKENS := by omega
      obtain ⟨k, hk, hsum, hres⟩ := ih (idx + 1)
        (total + estimateTokens (formatChunk dateFmt (sid (idx + 1)) r)) hfit
      have hblocks : blocksFrom dateFmt idx ((r :: rest).take (k + 1))
          = formatChunk dateFmt (sid (idx + 1)) r
            :: blocksFrom dateFmt (idx + 1) (rest.take k) :=
        blocksFrom_take_succ dateFmt idx k r rest
      have hts : total + tokenSum (blocksFrom dateFmt idx ((r :: rest).take (k + 1)))
          = total + estimateTokens (formatChunk dateFmt (sid (idx + 1)) r)
            + tokenSum (blocksFrom dateFmt (idx + 1) (rest.take k)) := by
        rw [hblocks, tokenSum_cons]
        omega
      have hloop := buildLoop_cons_fit dateFmt idx total r rest hover
      refine ⟨k + 1, by simpa using Nat.succ_le_succ hk, by rw [hts]; exact hsum, ?_⟩
      have hidx : idx + (k + 1) + 1 = idx + 1 + k + 1 := by omega
      rcases hres with ⟨hp, hs, hlast⟩ | ⟨r2, hr2, hov2, hroom2, hp, hs⟩
      · left
        refine ⟨?_, ?_, ?_⟩
        · rw [hloop]
          simp only []
          rw [hblocks, hp]
        · rw [hloop]
          simp only []
          rw [sourcesFrom_take_succ, hs]
        · rcases hlast with h1 | ⟨r2, hr2, hov2, hroom2⟩
          · left
            simp [h1]
          · right
            refine ⟨r2, ?_, ?_, ?_⟩
            · rw [List.getElem?_cons_succ]
              exact hr2
            · rw [hts, hidx]
              exact hov2
            · rw [hts]
              exact hroom2
      · right
        refine ⟨r2, ?_, ?_, ?_, ?_, ?_⟩
        · rw [List.getElem?_cons_succ]
          exact hr2
        · rw [hts, hidx]
          exact hov2
        · rw [hts]
          exact hroom2
        · rw [hloop]
          simp only []
          rw [hp, hblocks, tokenSum_cons]
          have hidx2 : idx + (k + 1) = idx + 1 + k := by omega
          have h9 : MAX_CONTEXT_TOKENS
                - (total + (estimateTokens (formatChunk dateFmt (sid (idx + 1)) r)
                    + tokenSum (blocksFrom dateFmt (idx + 1) (rest.take k))))
              = MAX_CONTEXT_TOKENS
                - (total + estimateTokens (formatChunk dateFmt (sid (idx + 1)) r)
                    + tokenSum (blocksFrom dateFmt (idx + 1) (rest.take k))) := by omega
          rw [hidx2, h9]
          simp
        · rw [hloop]
          simp only []
          rw [sourcesFrom_take_succ, hs]

/-- C4: token budgeting of `buildContext`: for some cut `k` into the
deduplicated ranked list, the context text consists of the first `k` full
blocks, whose estimated tokens sum to at most the 8000-token budget, plus
at most one truncated block; the truncated block appears only when the
next full block would overflow the budget and the remaining budget exceeds
the 100-token floor (its text sliced to `remaining * 4` characters with an
ellipsis marker), and every item after the stopping point is excluded
entirely. -/
theorem claim_C4_token_budget (dateFmt : Str → Str) (results : List SearchResult) :
    ∃ k,
      k ≤ (deduplicateChunks (sortByScoreDesc results)).length ∧
      tokenSum (blocksFrom dateFmt 0 ((deduplicateChunks (sortByScoreDesc results)).take k))
        ≤ MAX_CONTEXT_TOKENS ∧
      (((buildContext dateFmt results).contextText
          = List.intercalate blockSep
              (blocksFrom dateFmt 0 ((deduplicateChunks (sortByScoreDesc results)).take k)) ∧
        (buildContext dateFmt results).sources.length = k ∧
        (k = (deduplicateChunks (sortByScoreDesc results)).length ∨
          ∃ r, (deduplicateChunks (sortByScoreDesc results))[k]? = some r ∧
            MAX_CONTEXT_TOKENS <
              tokenSum (blocksFrom dateFmt 0
                  ((deduplicateChunks (sortByScoreDesc results)).take k))
                + estimateTokens (formatChunk dateFmt (sid (k + 1)) r) ∧
            MAX_CONTEXT_TOKENS
                - tokenSum (blocksFrom dateFmt 0
                    ((deduplicateChunks (sortByScoreDesc results)).take k)) ≤ 100))
       ∨ (∃ r, (deduplicateChunks (sortByScoreDesc results))[k]? = some r ∧
            MAX_CONTEXT_TOKENS <
              tokenSum (blocksFrom dateFmt 0
                  ((deduplicateChunks (sortByScoreDesc results)).take k))
                + estimateTokens (formatChunk dateFmt (sid (k + 1)) r) ∧
            100 < MAX_CONTEXT_TOKENS
                - tokenSum (blocksFrom dateFmt 0
                    ((deduplicateChunks (sortByScoreDesc results)).take k)) ∧
            (buildContext dateFmt results).contextText
              = List.intercalate blockSep
                  (blocksFrom dateFmt 0 ((deduplicateChunks (sortByScoreDesc results)).take k)
                    ++ [truncBlock dateFmt k
                        (MAX_CONTEXT_TOKENS
                          - tokenSum (blocksFrom dateFmt 0
                              ((deduplicateChunks (sortByScoreDesc results)).take k))) r]) ∧
            (buildContext dateFmt results).sources.length = k + 1)) := by
  by_cases hnil : results = []
  · subst hnil
    refine ⟨0, by simp, by simp [tokenSum, blocksFrom, MAX_CONTEXT_TOKENS], Or.inl ⟨?_, ?_, Or.inl ?_⟩⟩
    · rfl
    · rfl
    · rfl
  · obtain ⟨k, hk, hsum, hres⟩ :=
      buildLoop_spec dateFmt (deduplicateChunks (sortByScoreDesc results)) 0 0 (by omega)
    simp only [Nat.zero_add] at hsum hres
    have hctx : (buildContext dateFmt results).contextText
        = List.intercalate blockSep
            ((buildLoop dateFmt (deduplicateChunks (sortByScoreDesc results)) 0 0).1) := by
      unfold buildContext
      rw [if_neg hnil]
    have hsrc : (buildContext dateFmt results).sources
        = (buildLoop dateFmt (deduplicateChunks (sortByScoreDesc results)) 0 0).2 := by
      unfold buildContext
      rw [if_neg hnil]
    refine ⟨k, hk, hsum, ?_⟩
    rcases hres with ⟨hp, hs, hlast⟩ | ⟨r, hr, hov, hroom, hp, hs⟩
    · left
      refine ⟨?_, ?_, ?_⟩
      · rw [hctx, hp]
      · rw [hsrc, hs, sourcesFrom_length, List.length_take]
        omega
      · rcases hlast with h1 | ⟨r, hr, hov, hroom⟩
        · exact Or.inl h1
        · exact Or.inr ⟨r, hr, hov, hroom⟩
    · right
      refine ⟨r, hr, hov, hroom, ?_, ?_⟩
      · rw [hctx, hp]
      · rw [hsrc, hs, sourcesFrom_length, List.length_take]
        have hlt2 : k < (deduplicateChunks (sortByScoreDesc results)).length := by
          have := List.getElem?_eq_some.mp hr
          exact this.1
        omega

/-- C8: in every built context the surviving (non-duplicate,
budget-included) items carry the 1-based sequential citation ids
`S1, S2, …` in final rank order — the id of the `i`-th retained source is
`S(i+1)` — and the retained sources are in score-descending order, so `S1`
belongs to the highest-ranked surviving item. -/
theorem claim_C8_citations (dateFmt : Str → Str) (results : List SearchResult) :
    ((buildContext dateFmt results).sources.map (fun s => s.sourceId))
      = (List.range (buildContext dateFmt results).sources.length).map (fun i => sid (i + 1)) ∧
    (buildContext dateFmt results).sources.Pairwise (fun p q => q.score ≤ p.score) := by
  by_cases hnil : results = []
  · subst hnil
    exact ⟨rfl, by simp [buildContext]⟩
  · have hsrc : ∃ m, (buildContext dateFmt results).sources
        = sourcesFrom 0 ((deduplicateChunks (sortByScoreDesc results)).take m) := by
      obtain ⟨k, hk, hsum, hres⟩ :=
        buildLoop_spec dateFmt (deduplicateChunks (sortByScoreDesc results)) 0 0 (by omega)
      have hsrc0 : (buildContext dateFmt results).sources
          = (buildLoop dateFmt (deduplicateChunks (sortByScoreDesc results)) 0 0).2 := by
        unfold buildContext
        rw [if_neg hnil]
      rcases hres with ⟨-, hs, -⟩ | ⟨-, -, -, -, -, hs⟩
      · exact ⟨k, by rw [hsrc0, hs]⟩
      · exact ⟨k + 1, by rw [hsrc0, hs]⟩
    obtain ⟨m, hm⟩ := hsrc
    constructor
    · rw [hm, sourcesFrom_ids, sourcesFrom_length]
      apply List.map_congr_left
      intro i hi
      rw [Nat.zero_add]
    · rw [hm]
      apply sourcesFrom_pairwise
      apply List.Pairwise.sublist (List.take_sublist m _)
      apply List.Pairwise.sublist (dedupChunksAux_sublist _ [])
      exact List.sorted_insertionSort byScoreDesc results

-- ---------------------------------------------------------------------------
-- Near-duplicate suppression (C3)
-- ---------------------------------------------------------------------------

theorem computeOverlap_self_eq_one (n : Str) (hlen : 50 ≤ n.length)
    (hword : distinctWords (n.take ((7 * n.length) / 10)) ≠ []) :
    computeOverlap n n = 1 := by
  unfold computeOverlap
  rw [if_neg (by omega)]
  rw [min_self]
  rw [if_neg (by
    intro h
    rcases h.elim id id with h2
    exact hword (List.length_eq_zero.mp h2))]
  rw [List.filter_eq_self.mpr (by intro w hw; simpa using hw)]
  rw [max_self]
  rw [div_self]
  rw [Nat.cast_ne_zero]
  intro h2
  exact hword (List.length_eq_zero.mp h2)

/-- C3 (amended): two hits with identical normalized text and the same
score yield exactly one retained item in the built context, provided the
normalized text is at least 50 characters long and its 70%-prefix contains
at least one word longer than 3 characters.  (Shorter texts, or texts
whose 70%-prefix holds only words of at most 3 characters, are never
considered duplicates; see the counterexample.) -/
theorem claim_C3_near_dup_suppressed (dateFmt : Str → Str) (a b : SearchResult)
    (htext : normalizeText a.text = normalizeText b.text)
    (hscore : a.score = b.score)
    (hlen : 50 ≤ (normalizeText a.text).length)
    (hword : distinctWords ((normalizeText a.text).take
        ((7 * (normalizeText a.text).length) / 10)) ≠ []) :
    (buildContext dateFmt [a, b]).sources.length = 1 := by
  have hsort : sortByScoreDesc [a, b] = [a, b] := by
    simp [sortByScoreDesc, List.insertionSort, List.orderedInsert, byScoreDesc, hscore.symm.le]
  have hco : computeOverlap (normalizeText a.text) (normalizeText a.text) = 1 :=
    computeOverlap_self_eq_one _ hlen hword
  have hdec : decide ((7 : ℚ)/10
      < computeOverlap (normalizeText b.text) (normalizeText a.text)) = true := by
    rw [← htext, hco]
    norm_num
  have hdedup : deduplicateChunks [a, b] = [a] := by
    unfold deduplicateChunks
    simp only [dedupChunksAux, List.any_nil, Bool.false_eq_true, if_false, List.nil_append,
      List.any_cons, Bool.or_false, hdec, if_true]
  unfold buildContext
  rw [if_neg (by simp)]
  simp only [hsort, hdedup]
  by_cases hov : MAX_CONTEXT_TOKENS < 0 + estimateTokens (formatChunk dateFmt (sid (0 + 1)) a)
  · rw [buildLoop_cons_over_room dateFmt 0 0 a [] hov (by norm_num [MAX_CONTEXT_TOKENS])]
    rfl
  · rw [buildLoop_cons_fit dateFmt 0 0 a [] hov]
    rfl

/-- A short-text hit (2 characters): below the 50-character minimum the
overlap heuristic never fires. -/
def hitHi : SearchResult :=
  { text := ("hi").data, score := 1, metadata := mdGit }

/-- Counterexample to C3 as stated: two hits with identical normalized
text (`"hi"`) and the same score are BOTH retained by the context builder
— the built context has two items, not one — because strings shorter than
50 characters are never considered duplicates. -/
theorem claim_C3_counterexample :
    normalizeText hitHi.text = normalizeText hitHi.text ∧
    hitHi.score = hitHi.score ∧
    (buildContext (fun d => d) [hitHi, hitHi]).sources.length = 2 := by
  refine ⟨rfl, rfl, ?_⟩
  have hco : computeOverlap (normalizeText hitHi.text) (normalizeText hitHi.text) = 0 := by
    unfold computeOverlap
    rw [if_pos (Or.inl (by decide))]
  have hdec : decide ((7 : ℚ)/10
      < computeOverlap (normalizeText hitHi.text) (normalizeText hitHi.text)) = false := by
    rw [hco]
    norm_num
  have hdedup : deduplicateChunks [hitHi, hitHi] = [hitHi, hitHi] := by
    unfold deduplicateChunks
    simp only [dedupChunksAux, List.any_nil, Bool.false_eq_true, if_false, List.nil_append,
      List.any_cons, Bool.or_false, hdec]
  have hsort : sortByScoreDesc [hitHi, hitHi] = [hitHi, hitHi] := by
    simp [sortByScoreDesc, List.insertionSort, List.orderedInsert, byScoreDesc]
  unfold buildContext
  rw [if_neg (by simp)]
  simp only [hsort, hdedup]
  rfl

/-- A 60-character single-spaced lowercase hit for the C3 witness. -/
def hitLong : SearchResult :=
  { text := ("the quick brown fox jumps over the lazy dog again and again").data
    score := 1
    metadata := mdGit }

/-- Witness for C3 (amended): the long-text duplicate pair collapses to a
single retained item. -/
theorem claim_C3_near_dup_suppressed_witness :
    (normalizeText hitLong.text = normalizeText hitLong.text ∧
      hitLong.score = hitLong.score ∧
      50 ≤ (normalizeText hitLong.text).length) ∧
    (buildContext (fun d => d) [hitLong, hitLong]).sources.length = 1 :=
  ⟨⟨rfl, rfl, by decide⟩,
    claim_C3_near_dup_suppressed (fun d => d) hitLong hitLong rfl rfl (by decide) (by decide)⟩

end DigitalTwin
